import Mathlib

/-!
# Verification of the envcfg field-resolution engine

A shallow embedding, in Lean 4, of the core algorithms of the `envcfg`
repository (Go): the snake-case key synthesiser (`internal/tag/tag.go`),
the path-based key matcher (`internal/matcher/matcher.go`, the version whose
`GetValue`/`hasPrefix`/`getMapKey`/`findLongestMatchingKey` operate on a
`[]tag.TagMap` path), the prefix-based matcher used by the tree walker, the
tree walker itself (`internal/walker/walker.go`), and the loader
(`internal/loader`).

Go strings are modelled as `List Char` (the sources only ever manipulate
ASCII configuration keys, for which Go's byte-indexed loops and Lean's
character lists agree).  Go maps that are iterated are modelled as
association lists; the list order stands in for Go's unspecified map
iteration order, and every theorem below is insensitive to that order.
Functions with loops that Go terminates only through the finiteness of the
environment are given an explicit fuel parameter; theorems quantify over
sufficient fuel.
-/

/-- Go string, modelled as a list of (ASCII) characters. -/
abbrev GoStr := List Char

/-- Convert a Lean string literal to the `GoStr` model. -/
def gs (s : String) : GoStr := s.data

/-- `strings.ToUpper` restricted to ASCII (all keys in scope are ASCII). -/
def goUpper (s : GoStr) : GoStr := s.map Char.toUpper

/-- `strings.ToLower` restricted to ASCII. -/
def goLower (s : GoStr) : GoStr := s.map Char.toLower

/-- `strings.HasPrefix(s, pre)`. -/
def goHasPrefix (s pre : GoStr) : Bool := pre.isPrefixOf s

/-- `strings.HasSuffix(s, suf)`. -/
def goHasSuffix (s suf : GoStr) : Bool := suf.isSuffixOf s

/-- `strings.TrimPrefix(s, pre)`. -/
def goTrimPrefix (s pre : GoStr) : GoStr :=
  if pre.isPrefixOf s then s.drop pre.length else s

/-- `strings.TrimSuffix(s, suf)`. -/
def goTrimSuffix (s suf : GoStr) : GoStr :=
  if suf.isSuffixOf s then s.take (s.length - suf.length) else s

/-- `strings.Index(s, sub)`: first byte index of `sub` in `s`, `none` when
absent (Go returns `-1`). -/
def goIndex : GoStr → GoStr → Option Nat
  | s, sub =>
    if sub.isPrefixOf s then some 0
    else
      match s with
      | [] => none
      | _ :: t => (goIndex t sub).map (· + 1)

/-- Association-list lookup, modelling a Go map read `m[k]`. -/
def lookupA {α : Type} : List (GoStr × α) → GoStr → Option α
  | [], _ => none
  | (k', v) :: t, k => if k' = k then some v else lookupA t k

/-- Association-list insertion/overwrite, modelling a Go map write
`m[k] = v`. -/
def updateA {α : Type} : List (GoStr × α) → GoStr → α → List (GoStr × α)
  | [], k, v => [(k, v)]
  | (k', v') :: t, k, v =>
    if k' = k then (k, v) :: t else (k', v') :: updateA t k v

/-- The loaded environment: key/value pairs (a Go `map[string]string`,
modelled as an association list whose order stands in for Go's map
iteration order). -/
abbrev Env := List (GoStr × GoStr)

/-! ## `tag.toSnakeCase` (internal/tag/tag.go)

The Go code iterates the string with byte index `i` and rune `r`, writing
an underscore before `r` exactly when
`i > 0 && unicode.IsUpper(r) && (unicode.IsLower(s[i-1]) || (i < len(s)-1 && unicode.IsLower(s[i+1])))`,
then writes `unicode.ToLower(r)`.  The loop only inspects the previous and
the next character, so it is embedded as a recursion that carries the
previous character and peeks at the head of the remainder. -/

/-- One step of `toSnakeCase`: given the previous character (`none` at the
start of the string), the current character and the rest of the string,
the piece of output contributed by the current character. -/
def snakePiece (prev : Option Char) (c : Char) (rest : GoStr) : GoStr :=
  let boundary :=
    match prev with
    | none => false
    | some p =>
      c.isUpper && (p.isLower ||
        (match rest.head? with
         | some nxt => nxt.isLower
         | none => false))
  (if boundary then ['_'] else []) ++ [c.toLower]

/-- The recursion underlying `toSnakeCase`. -/
def toSnakeCaseAux (prev : Option Char) : GoStr → GoStr
  | [] => []
  | c :: rest => snakePiece prev c rest ++ toSnakeCaseAux (some c) rest

/-- `tag.toSnakeCase` from internal/tag/tag.go. -/
def toSnakeCase (s : GoStr) : GoStr := toSnakeCaseAux none s

/-! ### The claim-side boundary rule for C6

`underscoreAt` transliterates the specification sentence: an underscore is
inserted before the character at (interior) position `i` exactly when that
character is uppercase and is adjacent to a lowercase character on either
side.  (The claim's own examples — `FooBar ↦ foo_bar`, not `_foo_bar` —
fix the reading that position 0, which has no character before it, never
receives an underscore.) -/

def isLowerAt (s : GoStr) (i : Nat) : Bool :=
  match s[i]? with
  | some c => c.isLower
  | none => false

def underscoreAt (s : GoStr) (i : Nat) : Bool :=
  0 < i &&
  (match s[i]? with
   | some c => c.isUpper
   | none => false) &&
  (isLowerAt s (i - 1) || (decide (i < s.length - 1) && isLowerAt s (i + 1)))

def snakePieceClaim (s : GoStr) (i : Nat) : GoStr :=
  (if underscoreAt s i then ['_'] else []) ++ (s[i]?.map Char.toLower).toList

def snakeCaseClaim (s : GoStr) : GoStr :=
  ((List.range s.length).map (snakePieceClaim s)).flatten

def prevAt (s : GoStr) (i : Nat) : Option Char :=
  if i = 0 then none else s[i - 1]?

/-! ## The path-based key matcher (internal/matcher/matcher.go, lines 1-496)

This matcher receives a *path*: the ordered list of `tag.TagMap`s from the
root record down to the current field.  Each `TagMap` carries the field
name, the parsed struct tags of the field — an association list standing in
for Go's `map[string]Tag`, whose iteration order is unspecified; the
theorems below do not depend on the order — and, for map-typed fields, the
declared fields of the map's element struct type (`reflect.Type.Elem()`).

The Go struct-tag tokenizer (`tag.ParseTags`, lines 32-78 of tag.go) is not
re-modelled character by character: fields carry their declared tags
already split into `(namespace, {value, options})` pairs, and `synthTags`
appends the two synthesized entries exactly as `ParseTags` does.  Since
the synthesized entries are written into the Go map last, a declared tag
named `struct`/`struct_snake` would be overwritten; the filter models
that. -/

/-- A parsed struct tag: primary value plus `key=value` options
(`tag.Tag`). -/
structure Tag1 where
  value : GoStr
  options : List (GoStr × GoStr)
deriving DecidableEq

/-- A struct field as the matcher sees it: its name and its declared tags
in declaration order. -/
structure FieldMeta where
  name : GoStr
  declaredTags : List (GoStr × Tag1)
deriving DecidableEq

/-- `tag.ParseTags` output for a field: declared tags plus the synthesized
`struct` (raw field name) and `struct_snake` entries. -/
def synthTags (name : GoStr) (declared : List (GoStr × Tag1)) :
    List (GoStr × Tag1) :=
  declared.filter (fun p => !(p.1 == gs "struct" || p.1 == gs "struct_snake")) ++
    [(gs "struct", ⟨name, []⟩), (gs "struct_snake", ⟨toSnakeCase name, []⟩)]

/-- `tag.TagMap`: field name, tags, and (for map fields) the element
struct's declared fields. -/
structure TagMap1 where
  fieldName : GoStr
  elemFields : Option (List FieldMeta)
  tags : List (GoStr × Tag1)
deriving DecidableEq

/-- Build the `TagMap` of a field with no special element type. -/
def tagMapOf (fm : FieldMeta) : TagMap1 :=
  ⟨fm.name, none, synthTags fm.name fm.declaredTags⟩

/-- Build the `TagMap` of a map-of-structs field. -/
def tagMapOfMap (fm : FieldMeta) (elemFields : List FieldMeta) : TagMap1 :=
  ⟨fm.name, some elemFields, synthTags fm.name fm.declaredTags⟩

/-- The `matcher` struct (lines 58-68).  `fs` models `os.ReadFile`. -/
structure Matcher1 where
  tagName : GoStr
  defaultTag : GoStr
  expandTag : GoStr
  fileTag : GoStr
  notEmptyTag : GoStr
  requiredTag : GoStr
  disableFallback : Bool
  envVars : Env
  fs : GoStr → Except GoStr GoStr

/-- `matcher.New()` with a given environment, fallback flag and file
system. -/
def newMatcher1 (env : Env) (df : Bool) (fs : GoStr → Except GoStr GoStr) :
    Matcher1 :=
  ⟨gs "env", gs "default", gs "expand", gs "file", gs "notempty",
   gs "required", df, env, fs⟩

/-- `matcher.isKnownTag` (lines 474-486). -/
def isKnownTag1 (m : Matcher1) (n : GoStr) : Bool :=
  n == m.tagName || n == m.requiredTag || n == m.defaultTag ||
  n == m.expandTag || n == m.notEmptyTag || n == m.fileTag

/-- Prefix concatenation used at each descent level: `tag.Value` when the
accumulated prefix is empty, `prefix + "_" + tag.Value` otherwise. -/
def chain (pre v : GoStr) : GoStr :=
  if pre = [] then v else pre ++ '_' :: v

/-- The candidate values tried at one level, in order: the reserved
primary (`env`) tag first when present, then every other tag whose value
is nonempty and whose namespace is not a reserved option name, skipped
wholesale when `extraSkip` (the `disableFallback` conjunct of the loop's
skip condition, absent from `hasPrefix`/`toPrefix`) holds.  Trying these
in order with first-hit-wins is exactly the source's primary branch
followed by its fallback loop. -/
def candVals (tagName : GoStr) (known : GoStr → Bool) (extraSkip : Bool)
    (tags : List (GoStr × Tag1)) : List GoStr :=
  (match lookupA tags tagName with
   | some tg => [tg.value]
   | none => []) ++
  (tags.filter (fun p =>
    !(p.2.value == [] || known p.1 || extraSkip))).map (fun p => p.2.value)

/-- `matcher.getValue` (lines 284-326): descend the path accumulating a
prefix per candidate; first full chain that hits a loaded key wins.
Returns the matched key and value. -/
def getValue1 (m : Matcher1) : List TagMap1 → GoStr → Option (GoStr × GoStr)
  | [], pre =>
    let k := goUpper pre
    (lookupA m.envVars k).map (fun v => (k, v))
  | cur :: rest, pre =>
    (candVals m.tagName (isKnownTag1 m) m.disableFallback cur.tags).findSome?
      (fun v => getValue1 m rest (chain pre v))

/-- The recursion of `matcher.hasPrefix` (lines 328-372): same descent as
`getValue`, but at the leaf it asks whether any loaded key starts with the
accumulated prefix.  The source's body reads only the tag name, the
known-tag set and the environment — in particular, unlike `getValue`, its
fallback loop does not consult `disableFallback` — so the core recursion
is parameterised by exactly those three. -/
def hasPrefixCore (tagName : GoStr) (known : GoStr → Bool) (env : Env) :
    List TagMap1 → GoStr → Bool
  | [], pre =>
    env.any (fun p => goHasPrefix p.1 (goUpper pre))
  | cur :: rest, pre =>
    (candVals tagName known false cur.tags).any
      (fun v => hasPrefixCore tagName known env rest (chain pre v))

/-- `matcher.hasPrefix` as a method of the matcher. -/
def hasPrefix1 (m : Matcher1) (path : List TagMap1) (pre : GoStr) : Bool :=
  hasPrefixCore m.tagName (isKnownTag1 m) m.envVars path pre

/-- `matcher.toPrefix` (lines 374-417): for a given loaded key, find the
accumulated prefix (if any) that the key starts with.  Like `hasPrefix`,
its fallback loop does not consult `disableFallback`. -/
def toPrefix1 (m : Matcher1) (key : GoStr) :
    List TagMap1 → GoStr → Option GoStr
  | [], pre =>
    let p := goUpper pre
    if goHasPrefix key p then some p else none
  | cur :: rest, pre =>
    (candVals m.tagName (isKnownTag1 m) false cur.tags).findSome?
      (fun v => toPrefix1 m key rest (chain pre v))

/-- Option lookup for one reserved option name: the standalone tag value,
overridden by the `env` tag's option of the same name (the map in
`parseOptions`, lines 423-472, is built standalone-first and then
overwritten from the `env` tag options). -/
def optLookup (m : Matcher1) (tm : TagMap1) (optName : GoStr) : Option GoStr :=
  match (lookupA tm.tags m.tagName).bind (fun tg => lookupA tg.options optName) with
  | some v => some v
  | none => (lookupA tm.tags optName).map Tag1.value

/-- `fieldPath` (lines 488-496): dot-joined field names. -/
def fieldPath1 : List TagMap1 → GoStr
  | [] => []
  | tm :: rest => rest.foldl (fun acc tm2 => acc ++ '.' :: tm2.fieldName) tm.fieldName

/-- `os.Expand` restricted to the `${NAME}` form (the only form the spec
mentions); the fuel equals the string length, which suffices since every
step consumes at least one character. -/
def osExpandAux (lookup : GoStr → GoStr) : Nat → GoStr → GoStr
  | 0, s => s
  | _ + 1, [] => []
  | fuel + 1, '$' :: '{' :: rest =>
    let name := rest.takeWhile (fun c => !(c == '}'))
    match rest.dropWhile (fun c => !(c == '}')) with
    | '}' :: rest2 => lookup name ++ osExpandAux lookup fuel rest2
    | _ => '$' :: '{' :: osExpandAux lookup fuel rest
  | fuel + 1, c :: rest => c :: osExpandAux lookup fuel rest

/-- `matcher.expandValue` (lines 419-421): `${NAME}` references are
substituted from the loaded mapping, missing names becoming empty. -/
def expandValue1 (m : Matcher1) (v : GoStr) : GoStr :=
  osExpandAux (fun name => (lookupA m.envVars name).getD []) v.length v

/-- `matcher.GetValue` (lines 98-140).  Result: `(value, found)` or an
error; on the not-empty and file-read errors Go additionally returns
`found=true`, which the `Except` model drops along with the value. -/
def GetValue1 (m : Matcher1) (path : List TagMap1) :
    Except GoStr (GoStr × Bool) :=
  match path.getLast? with
  | none => .error (gs "empty path")
  | some last =>
    match getValue1 m path [] with
    | none =>
      if (optLookup m last m.requiredTag).isSome then
        .error (gs "required field " ++ fieldPath1 path ++ gs " not found")
      else
        match optLookup m last m.defaultTag with
        | some d =>
          if (optLookup m last m.expandTag).isSome then
            .ok (expandValue1 m d, true)
          else
            .ok (d, true)
        | none => .ok ([], false)
    | some (key, value) =>
      if (optLookup m last m.notEmptyTag).isSome && value == [] then
        .error (gs "environment variable " ++ key ++ gs " is empty")
      else if (optLookup m last m.fileTag).isSome then
        match m.fs value with
        | .error e => .error e
        | .ok bytes =>
          if (optLookup m last m.expandTag).isSome then
            .ok (expandValue1 m bytes, true)
          else
            .ok (bytes, true)
      else if (optLookup m last m.expandTag).isSome then
        .ok (expandValue1 m value, true)
      else
        .ok (value, true)

/-- `matcher.HasPrefix` (lines 142-144). -/
def HasPrefix1 (m : Matcher1) (path : List TagMap1) : Bool :=
  hasPrefix1 m path []

/-- `matcher.getMapKey` (lines 182-201): strip the prefix (and its
underscore), then — if the remainder ends in the suffix — return the
lower-cased remainder with `_suffix` trimmed; failing that, if `_suffix_`
occurs inside the remainder, return the lower-cased part before it;
otherwise nothing (the empty string). -/
def getMapKey1 (key pfx suffix : GoStr) : GoStr :=
  if !goHasPrefix key pfx then []
  else
    let afterPfx := goTrimPrefix key (pfx ++ ['_'])
    if goHasSuffix afterPfx suffix then
      goLower (goTrimSuffix afterPfx ('_' :: suffix))
    else
      match goIndex afterPfx ('_' :: suffix ++ ['_']) with
      | some idx => goLower (afterPfx.take idx)
      | none => []

/-- One candidate-consideration step of `findLongestMatchingKey`
(lines 258-278): a candidate whose `getMapKey` is nonempty replaces the
best match when its tag value is strictly longer. -/
def flmkStep (key pfx : GoStr) (st : GoStr × Nat) (v : GoStr) : GoStr × Nat :=
  let mk := getMapKey1 key pfx (goUpper v)
  if mk ≠ [] ∧ st.2 < v.length then (mk, v.length) else st

/-- `matcher.findLongestMatchingKey` (lines 247-282): over every field of
the map's element struct type, try the primary tag value and then the
eligible fallback tag values, keeping the map key produced by the longest
tag value. -/
def findLongestMatchingKey1 (m : Matcher1) (key pfx : GoStr)
    (path : List TagMap1) : GoStr :=
  match path.getLast? with
  | none => []
  | some cur =>
    match cur.elemFields with
    | none => []
    | some fields =>
      (fields.foldl (fun st fld =>
        (candVals m.tagName (isKnownTag1 m) m.disableFallback
            (synthTags fld.name fld.declaredTags)).foldl
          (flmkStep key pfx) st) (([] : GoStr), 0)).1

/-- `matcher.getStructMapKeys` (lines 228-245): every loaded key that
matches some candidate prefix of the path contributes its longest-match
map key; duplicates are collapsed (the Go set is modelled as a
first-seen-order deduplicated list). -/
def getStructMapKeys1 (m : Matcher1) (path : List TagMap1) : List GoStr :=
  m.envVars.foldl (fun acc p =>
    match toPrefix1 m p.1 path [] with
    | some pfx =>
      let k := findLongestMatchingKey1 m p.1 pfx path
      if k != [] && !acc.contains k then acc ++ [k] else acc
    | none => acc) []

/-! ### Concrete instances used by the matcher claims -/

/-- A file system on which every read fails (`os.ReadFile` model); the
matcher claims below never legitimately reach it. -/
def fsNone : GoStr → Except GoStr GoStr := fun _ => .error (gs "file read error")

/-- C2 instance: loaded keys `M_A_KEY` and `M_B_OTHER_KEY`. -/
def mC2 : Matcher1 :=
  newMatcher1 [(gs "M_A_KEY", gs "1"), (gs "M_B_OTHER_KEY", gs "2")] false fsNone

/-- C2 instance: a map field `M` whose element struct declares fields
`Key` and `OtherKey` (no literal tags). -/
def pathC2 : List TagMap1 :=
  [tagMapOfMap ⟨gs "M", []⟩ [⟨gs "Key", []⟩, ⟨gs "OtherKey", []⟩]]

/-- C4 instance: field `FooBar` with `default:""` and `notempty:"true"`. -/
def fmC4a : FieldMeta :=
  ⟨gs "FooBar", [(gs "default", ⟨[], []⟩), (gs "notempty", ⟨gs "true", []⟩)]⟩

/-- C4 instance: field `FooBar` with `default:"d"` and `file:"true"`. -/
def fmC4b : FieldMeta :=
  ⟨gs "FooBar", [(gs "default", ⟨gs "d", []⟩), (gs "file", ⟨gs "true", []⟩)]⟩

/-- C4 matcher: empty environment, so every lookup is absent. -/
def mC4 : Matcher1 := newMatcher1 [] false fsNone

def pathC4a : List TagMap1 := [tagMapOf fmC4a]

def pathC4b : List TagMap1 := [tagMapOf fmC4b]

/-- C5 matcher: `disableFallback` set, loaded key `FOO_BAR_BAZ`. -/
def mC5 : Matcher1 := newMatcher1 [(gs "FOO_BAR_BAZ", gs "1")] true fsNone

/-- C5 field: `FooBar` with no literal tags, hence no primary (`env`)
annotation — only the synthesized fallback candidates. -/
def tmC5 : TagMap1 := tagMapOf ⟨gs "FooBar", []⟩

/-- The claim-side resolution under `disableFallback` (C5): only the
reserved primary annotation is eligible as a candidate at every level.
Written from the specification sentence, to be compared with
`getValue1`. -/
def getValuePrimaryOnly (m : Matcher1) : List TagMap1 → GoStr → Option (GoStr × GoStr)
  | [], pre =>
    let k := goUpper pre
    (lookupA m.envVars k).map (fun v => (k, v))
  | cur :: rest, pre =>
    (lookupA cur.tags m.tagName).bind
      (fun tg => getValuePrimaryOnly m rest (chain pre tg.value))

/-! ## The Go type/value universe for the tree walker

`internal/walker/walker.go` walks arbitrary record types through
reflection.  The model universe covers the shapes the walker's control
flow distinguishes: the string primitive (the representative of the
parser's kind table), structs, slices, maps and pointers.  Struct types
carry, per field: name, declared tags, exported flag (a field is
settable iff exported) and field type; struct values carry the field
values positionally.  Slices and maps carry a nil flag so that Go's
distinction between a nil and an empty non-nil collection is preserved
(`reflect.Value.IsZero` sees it; the walker's `isZero` deliberately does
not). -/

/-- Modelled Go types. -/
inductive GoType where
  | tstring : GoType
  | tstruct : List (GoStr × List (GoStr × Tag1) × Bool × GoType) → GoType
  | tslice : GoType → GoType
  | tmap : GoType → GoType
  | tptr : GoType → GoType

/-- Modelled Go values. -/
inductive GoValue where
  | vstr : GoStr → GoValue
  | vstruct : List GoValue → GoValue
  | vslice : Bool → List GoValue → GoValue
  | vmap : Bool → List (GoStr × GoValue) → GoValue
  | vptr : Option GoValue → GoValue

mutual

/-- The Go zero value of a type (`reflect.New(t).Elem()`). -/
def zeroValue : GoType → GoValue
  | .tstring => .vstr []
  | .tstruct fs => .vstruct (zeroFields fs)
  | .tslice _ => .vslice true []
  | .tmap _ => .vmap true []
  | .tptr _ => .vptr none

/-- Zero values of a struct's fields. -/
def zeroFields : List (GoStr × List (GoStr × Tag1) × Bool × GoType) → List GoValue
  | [] => []
  | (_, _, _, t) :: fs => zeroValue t :: zeroFields fs

end

mutual

/-- `reflect.Value.IsZero`: Go-zero means nil for pointers, slices and
maps, empty for strings, and all-fields-zero for structs. -/
def goIsZero : GoValue → Bool
  | .vstr s => s == []
  | .vstruct fs => goIsZeroAll fs
  | .vslice isNil _ => isNil
  | .vmap isNil _ => isNil
  | .vptr p => p.isNone

/-- All struct fields Go-zero. -/
def goIsZeroAll : List GoValue → Bool
  | [] => true
  | v :: vs => goIsZero v && goIsZeroAll vs

end

/-- `walker.isZero` (walker.go lines 608-616): `rv.IsZero()`, except that
a slice or map counts as zero whenever its length is zero — even when it
is non-nil and therefore not Go-zero. -/
def isZero (v : GoValue) : Bool :=
  match v with
  | .vslice _ es => es.length == 0
  | .vmap _ es => es.length == 0
  | _ => goIsZero v

/-- `walker.isPtr`. -/
def isPtrV (v : GoValue) : Bool :=
  match v with
  | .vptr _ => true
  | _ => false

/-- `walker.isNilPtr`. -/
def isNilPtrV (v : GoValue) : Bool :=
  match v with
  | .vptr none => true
  | _ => false

/-- The pointee type of a pointer type (`Type.Elem()`). -/
def elemT : GoType → GoType
  | .tptr t => t
  | t => t

/-- `parser.HasParser` over the model universe: the built-in kind table's
representative is the string kind; no type-keyed parsers are registered
(the sole built-in, `time.Duration`, is outside this universe). -/
def hasParser : GoType → Bool
  | .tstring => true
  | _ => false

/-- `walker.hasParserOrSetter` (lines 536-546): no decodable types exist
in the model universe, so the decoder probe yields nothing; then the
parser table is consulted on the pointee type for pointers. -/
def hasParserOrSetter (v : GoValue) (t : GoType) : Bool :=
  if isPtrV v then hasParser (elemT t) else hasParser t

/-- `walker.parseField` (lines 369-407) over the model universe: no
decoder; the type-parser table is empty; the string kind parser returns
no value (leaving the target untouched) on the empty string and the
string itself otherwise.  (For a pointer target Go writes through
`rv.Elem()`; the model allocates the pointee.) -/
def parseField (t : GoType) (v : GoValue) (value : GoStr) : Except GoStr GoValue :=
  match t with
  | .tptr te =>
    match te with
    | .tstring =>
      if value = [] then pure v else pure (.vptr (some (.vstr value)))
    | _ => pure v
  | .tstring =>
    if value = [] then pure v else pure (.vstr value)
  | _ => pure v

/-! ## The prefix-based matcher used by the walker
(internal/matcher/matcher.go, lines 947-1433)

This is the matcher version whose methods receive a `reflect.StructField`
plus the accumulated list of prefixes.  `FieldMeta` (name + declared tags)
stands in for the `StructField`, and `synthTags` again models
`tag.ParseTags`.  Match kinds are carried as strings, as in the source
(`matchType` is a string type and an unrecognized value falls through
every case). -/

/-- The `matcher` struct of the prefix-based version; `fs` models
`os.ReadFile`. -/
structure Matcher3 where
  tagName : GoStr
  defaultTag : GoStr
  expandTag : GoStr
  fileTag : GoStr
  notEmptyTag : GoStr
  requiredTag : GoStr
  matchTag : GoStr
  disableFallback : Bool
  defaultMatch : GoStr
  envVars : Env
  fs : GoStr → Except GoStr GoStr

/-- `matcher.New()` of the prefix-based version (default match kind
`prefix`). -/
def newMatcher3 (env : Env) (df : Bool) (fs : GoStr → Except GoStr GoStr) :
    Matcher3 :=
  ⟨gs "env", gs "default", gs "expand", gs "file", gs "notempty",
   gs "required", gs "match", df, gs "prefix", env, fs⟩

/-- Option lookup against a parsed tag set: the standalone tag's value,
overridden by the `env` tag's option of the same name (`parseOptions`,
lines 1334-1391). -/
def optLookup3 (m3 : Matcher3) (tags : List (GoStr × Tag1)) (optName : GoStr) :
    Option GoStr :=
  match (lookupA tags m3.tagName).bind (fun tg => lookupA tg.options optName) with
  | some v => some v
  | none => (lookupA tags optName).map Tag1.value

/-- `matcher.getMatchType` (lines 1393-1399). -/
def getMatchType3 (m3 : Matcher3) (tags : List (GoStr × Tag1)) : GoStr :=
  (optLookup3 m3 tags m3.matchTag).getD m3.defaultMatch

/-- `toEnvVarName` (lines 1420-1432). -/
def toEnvVarName (prefixes : List GoStr) (tagv : GoStr) : GoStr :=
  if prefixes = [] then goUpper tagv
  else
    let pre := List.intercalate ['_'] prefixes
    if pre = [] then goUpper tagv
    else goUpper (pre ++ '_' :: tagv)

/-- `toPrefixSets` (lines 1401-1418): the full joined prefix (when more
than one level), then each single level from deepest to shallowest, then
the empty prefix. -/
def toPrefixSets (prefixes : List GoStr) : List GoStr :=
  (if 1 < prefixes.length then [List.intercalate ['_'] prefixes] else []) ++
    prefixes.reverse ++ [[]]

/-- `matcher.getValue` of the prefix-based version (lines 1263-1286):
resolve one candidate field name under a match kind. -/
def getValue3core (m3 : Matcher3) (matchT : GoStr) (fieldName : GoStr)
    (prefixes : List GoStr) : Option (GoStr × GoStr) :=
  let f := goUpper fieldName
  if matchT = gs "exact" then
    (lookupA m3.envVars f).map (fun v => (f, v))
  else if matchT = gs "prefix" then
    let k := toEnvVarName prefixes f
    (lookupA m3.envVars k).map (fun v => (k, v))
  else if matchT = gs "best" then
    (toPrefixSets prefixes).findSome? (fun pre =>
      let k := toEnvVarName [pre] f
      (lookupA m3.envVars k).map (fun v => (k, v)))
  else none

/-- `matcher.GetValue` of the prefix-based version (lines 1084-1142).
The candidate loop ranges over a Go map and keeps the last hit; the model
iterates the tag list in its order.  The post-resolution option handling
is identical to the path-based version. -/
def GetValue3 (m3 : Matcher3) (rsf : FieldMeta) (prefixes : List GoStr) :
    Except GoStr (GoStr × Bool) :=
  let tags := synthTags rsf.name rsf.declaredTags
  let matchT := getMatchType3 m3 tags
  let found := tags.foldl (fun acc (p : GoStr × Tag1) =>
    if m3.disableFallback && !(p.1 == m3.tagName) then acc
    else
      match getValue3core m3 matchT p.2.value prefixes with
      | some r => some r
      | none => acc) none
  match found with
  | none =>
    if (optLookup3 m3 tags m3.requiredTag).isSome then
      .error (gs "required field " ++ rsf.name ++ gs " not found")
    else
      match optLookup3 m3 tags m3.defaultTag with
      | some d =>
        if (optLookup3 m3 tags m3.expandTag).isSome then
          .ok (osExpandAux (fun n => (lookupA m3.envVars n).getD []) d.length d, true)
        else
          .ok (d, true)
      | none => .ok ([], false)
  | some (key, value) =>
    if (optLookup3 m3 tags m3.notEmptyTag).isSome && value == [] then
      .error (gs "environment variable " ++ key ++ gs " is empty")
    else if (optLookup3 m3 tags m3.fileTag).isSome then
      match m3.fs value with
      | .error e => .error e
      | .ok bytes =>
        if (optLookup3 m3 tags m3.expandTag).isSome then
          .ok (osExpandAux (fun n => (lookupA m3.envVars n).getD []) bytes.length bytes, true)
        else
          .ok (bytes, true)
    else if (optLookup3 m3 tags m3.expandTag).isSome then
      .ok (osExpandAux (fun n => (lookupA m3.envVars n).getD []) value.length value, true)
    else
      .ok (value, true)

/-- `matcher.GetPrefix` (lines 1144-1185): the first candidate tag value
for which some loaded key starts with the candidate's resolved name is
returned upper-cased; with no match the upper-cased field name is the
fallback. -/
def GetPrefix3 (m3 : Matcher3) (rsf : FieldMeta) (prefixes : List GoStr) : GoStr :=
  let tags := synthTags rsf.name rsf.declaredTags
  let matchT := getMatchType3 m3 tags
  (tags.findSome? (fun (p : GoStr × Tag1) =>
    if p.2.value == [] then none
    else if m3.disableFallback && !(p.1 == m3.tagName) then none
    else if matchT = gs "exact" then
      if m3.envVars.any (fun e => goHasPrefix e.1 (goUpper p.2.value)) then
        some (goUpper p.2.value)
      else none
    else if matchT = gs "prefix" then
      if m3.envVars.any (fun e => goHasPrefix e.1 (toEnvVarName prefixes p.2.value)) then
        some (goUpper p.2.value)
      else none
    else if matchT = gs "best" then
      if (toPrefixSets prefixes).any (fun pre =>
          m3.envVars.any (fun e => goHasPrefix e.1 (toEnvVarName [pre] p.2.value))) then
        some (goUpper p.2.value)
      else none
    else none)).getD (goUpper rsf.name)

/-! ## The tree walker (internal/walker/walker.go)

All walker functions carry an explicit fuel parameter, decremented on
entry to each call; Go's indexed-probing loop terminates only through the
finiteness of the environment, so the theorems quantify over sufficient
fuel.  `walkMap`'s dynamic-key enumeration branches (`parseMapOfStructs`
and `parseMap`, exercised by no claim) are outside the model: after the
`MakeMap`/delimited-value handling the map is returned unchanged. -/

/-- The walker's initialization modes (`initMode`, walker.go lines
31-37): this walker version knows `always`, `never` and `values`. -/
inductive InitMode3 where
  | always : InitMode3
  | never : InitMode3
  | values : InitMode3
deriving DecidableEq

/-- The `walker` struct (lines 39-52) with its `New()` defaults; parser
and matcher are the modelled ones. -/
structure WalkerCfg where
  tagName : GoStr
  delimTag : GoStr
  defaultDelim : GoStr
  sepTag : GoStr
  defaultSep : GoStr
  initTag : GoStr
  ignoreTag : GoStr
  decodeUnsetTag : GoStr
  decodeUnset : Bool
  initMode : InitMode3

/-- `walker.New()` (lines 128-142). -/
def newWalker (im : InitMode3) : WalkerCfg :=
  ⟨gs "env", gs "delim", gs ",", gs "sep", gs ":", gs "init",
   gs "ignore", gs "decodeunset", false, im⟩

/-- A struct field as the walker sees it: name, declared tags, exported
flag, type. -/
abbrev FieldT := GoStr × List (GoStr × Tag1) × Bool × GoType

/-- `walker.parseIgnoreOption` (lines 576-592). -/
def parseIgnoreOption (w : WalkerCfg) (tags : List (GoStr × Tag1)) : Bool :=
  (lookupA tags w.ignoreTag).isSome ||
  (match lookupA tags w.tagName with
   | some tg => tg.value == gs "-" || (lookupA tg.options w.ignoreTag).isSome
   | none => false)

/-- `walker.parseDecodeUnsetOption` (lines 594-606). -/
def parseDecodeUnsetOption (w : WalkerCfg) (tags : List (GoStr × Tag1)) : Bool :=
  (lookupA tags w.decodeUnsetTag).isSome ||
  (match lookupA tags w.tagName with
   | some tg => (lookupA tg.options w.decodeUnsetTag).isSome
   | none => false)

/-- Interpret an init-tag value, keeping the current mode on anything but
the three known words. -/
def initModeOf (v : GoStr) (cur : InitMode3) : InitMode3 :=
  if v = gs "always" then .always
  else if v = gs "never" then .never
  else if v = gs "values" then .values
  else cur

/-- `walker.parseInitMode` (lines 548-574): the global mode, overridden
by a standalone `init` tag, overridden by the `env` tag's `init`
option. -/
def parseInitMode (w : WalkerCfg) (tags : List (GoStr × Tag1)) : InitMode3 :=
  let m0 := w.initMode
  let m1 :=
    match lookupA tags w.initTag with
    | some tg => initModeOf tg.value m0
    | none => m0
  match lookupA tags w.tagName with
  | some tg =>
    match lookupA tg.options w.initTag with
    | some ov => initModeOf ov m1
    | none => m1
  | none => m1

/-- `walker.setIfNeeded` (lines 344-367): `never` discards the
provisional value; `values` discards it when `isZero`; otherwise it is
committed, through a fresh allocation when the target is a pointer.  The
source returns no error. -/
def setIfNeeded (w : WalkerCfg) (tags : List (GoStr × Tag1))
    (temp rv : GoValue) : GoValue :=
  let im := parseInitMode w tags
  if im = .never then rv
  else if im = .values ∧ isZero temp then rv
  else
    match rv with
    | .vptr _ => .vptr (some temp)
    | _ => temp

/-- The tag value used for splitting, `rsf.Tag.Get(tag)` defaulted
(walker.go lines 410-413 and 435-443). -/
def delimOf (declared : List (GoStr × Tag1)) (tagName dflt : GoStr) : GoStr :=
  match lookupA declared tagName with
  | some tg => if tg.value = [] then dflt else tg.value
  | none => dflt

/-- `strings.Split`, fuel-based (fuel `s.length` suffices: every step
consumes a character or ends). -/
def goSplitAux (sep : GoStr) : Nat → GoStr → GoStr → List GoStr
  | 0, acc, rest => [acc.reverse ++ rest]
  | fuel + 1, acc, rest =>
    if sep.isPrefixOf rest ∧ sep ≠ [] then
      acc.reverse :: goSplitAux sep fuel [] (rest.drop sep.length)
    else
      match rest with
      | [] => [acc.reverse]
      | c :: t => goSplitAux sep fuel (c :: acc) t

def goSplit (s sep : GoStr) : List GoStr := goSplitAux sep (s.length + 1) [] s

/-- `strings.SplitN(s, sep, 2)`: the two parts around the first
occurrence of `sep`, or nothing when `sep` does not occur. -/
def splitN2 (s sep : GoStr) : Option (GoStr × GoStr) :=
  (goIndex s sep).map (fun i => (s.take i, s.drop (i + sep.length)))

/-- `Nat` rendered in decimal, for the walker's `fmt.Sprintf("%s_%d", ...)`. -/
def natStr (n : Nat) : GoStr := Nat.toDigits 10 n

/-- `walker.parseDelimitedSlice` (lines 409-428). -/
def parseDelimitedSlice (w : WalkerCfg) (rsf : FieldMeta) (et : GoType)
    (value : GoStr) : Except GoStr GoValue := do
  let delim := delimOf rsf.declaredTags w.delimTag w.defaultDelim
  let parts := goSplit value delim
  let elems ← parts.mapM (fun part => parseField et (zeroValue et) part)
  pure (.vslice false elems)

/-- `walker.parseDelimitedMap` (lines 430-465): `key<sep>value` pairs; a
missing separator is the invalid-map-format error.  Map keys in the model
universe are strings, for which the key parse is the identity (empty
stays the zero key, as with the string kind parser). -/
def parseDelimitedMap (w : WalkerCfg) (rsf : FieldMeta) (et : GoType)
    (value : GoStr) : Except GoStr GoValue := do
  let delim := delimOf rsf.declaredTags w.delimTag w.defaultDelim
  let sep := delimOf rsf.declaredTags w.sepTag w.defaultSep
  let parts := goSplit value delim
  let entries ← parts.mapM (fun part => do
    match splitN2 part sep with
    | none => throw (gs "invalid map format: " ++ part)
    | some (k, v) => do
      let ev ← parseField et (zeroValue et) v
      pure (k, ev))
  pure (.vmap false (entries.foldl (fun acc (p : GoStr × GoValue) =>
    updateA acc p.1 p.2) []))

mutual

/-- `walker.walkStruct` (lines 176-192): iterate the fields in order,
skipping fields that cannot be set (unexported ones); the first error
aborts. -/
def walkFields (m3 : Matcher3) (w : WalkerCfg) :
    Nat → List FieldT → List GoValue → List GoStr →
    Except GoStr (List GoValue)
  | 0, _, _, _ => throw (gs "out of fuel")
  | _ + 1, [], _, _ => pure []
  | _ + 1, _ :: _, [], _ => pure []
  | fuel + 1, f :: fs, v :: vs, pfx =>
    if !f.2.2.1 then do
      let rest ← walkFields m3 w fuel fs vs pfx
      pure (v :: rest)
    else do
      let v2 ← walkStructField m3 w fuel ⟨f.1, f.2.1⟩ f.2.2.2 v pfx
      let rest ← walkFields m3 w fuel fs vs pfx
      pure (v2 :: rest)

/-- `walker.walkStructField` (lines 194-220): parse tags, honor the
ignore option, build the provisional value (fresh zero, or the pointee
for pointer fields), resolve it as a leaf or recurse, then commit through
`setIfNeeded`. -/
def walkStructField (m3 : Matcher3) (w : WalkerCfg) :
    Nat → FieldMeta → GoType → GoValue → List GoStr →
    Except GoStr GoValue
  | 0, _, _, _, _ => throw (gs "out of fuel")
  | fuel + 1, rsf, t, v, pfx =>
    let tags := synthTags rsf.name rsf.declaredTags
    if parseIgnoreOption w tags then pure v
    else
      -- the provisional value and its type (lines 202-207): fresh zero
      -- of the field type, or of the pointee type for a nil pointer; an
      -- already-set pointer contributes its pointee
      let tv : GoType × GoValue :=
        match t, v with
        | .tptr te, .vptr none => (te, zeroValue te)
        | .tptr te, .vptr (some pv) => (te, pv)
        | _, _ => (t, zeroValue t)
      do
        let temp1 ←
          if hasParserOrSetter tv.2 tv.1 then
            parseStructField m3 w fuel rsf tv.1 tv.2 pfx
          else
            walkNested m3 w fuel rsf tv.1 tv.2 pfx
        pure (setIfNeeded w tags temp1 v)

/-- `walker.walkNestedStructField` (lines 222-235): compute the field's
prefix, then dispatch on the kind; kinds outside struct/slice/map are a
no-op. -/
def walkNested (m3 : Matcher3) (w : WalkerCfg) :
    Nat → FieldMeta → GoType → GoValue → List GoStr →
    Except GoStr GoValue
  | 0, _, _, _, _ => throw (gs "out of fuel")
  | fuel + 1, rsf, t, v, pfx =>
    let pfx2 := GetPrefix3 m3 rsf pfx
    match t, v with
    | .tstruct fts, .vstruct vs => do
      let vs2 ← walkFields m3 w fuel fts vs (pfx ++ [pfx2])
      pure (.vstruct vs2)
    | .tslice et, _ => walkSlice m3 w fuel rsf et pfx2 pfx
    | .tmap et, .vmap isNil entries => do
      -- walkMap (lines 305-327): de-nil the map, then the delimited
      -- literal; the dynamic-key enumeration is outside the model.
      match GetValue3 m3 rsf pfx with
      | .error e => throw e
      | .ok (value, _) =>
        if value ≠ [] then parseDelimitedMap w rsf et value
        else pure (.vmap false (if isNil then [] else entries))
    | _, _ => pure v

/-- `walker.parseStructField` (lines 329-342): resolve the value; when
absent and `decodeunset` is not set, leave the field untouched. -/
def parseStructField (m3 : Matcher3) (w : WalkerCfg) :
    Nat → FieldMeta → GoType → GoValue → List GoStr →
    Except GoStr GoValue
  | 0, _, _, _, _ => throw (gs "out of fuel")
  | _ + 1, rsf, t, v, pfx =>
    match GetValue3 m3 rsf pfx with
    | .error e => throw e
    | .ok (value, found) =>
      let du := parseDecodeUnsetOption w (synthTags rsf.name rsf.declaredTags)
      if !found && !du then pure v
      else parseField t v value

/-- `walker.walkSlice` (lines 237-303): start from a fresh empty slice;
a nonempty value at the field's own key is a delimited literal; otherwise
probe indices 0, 1, 2, … . -/
def walkSlice (m3 : Matcher3) (w : WalkerCfg) :
    Nat → FieldMeta → GoType → GoStr → List GoStr →
    Except GoStr GoValue
  | 0, _, _, _, _ => throw (gs "out of fuel")
  | fuel + 1, rsf, et, fieldName, pfx =>
    match GetValue3 m3 rsf pfx with
    | .error e => throw e
    | .ok (value, _) =>
      if value ≠ [] then parseDelimitedSlice w rsf et value
      else walkSliceLoop m3 w fuel rsf et fieldName pfx 0 []

/-- The indexed-probing loop of `walkSlice` (lines 249-302), with the
accumulated elements standing in for the in-place appends. -/
def walkSliceLoop (m3 : Matcher3) (w : WalkerCfg) :
    Nat → FieldMeta → GoType → GoStr → List GoStr → Nat → List GoValue →
    Except GoStr GoValue
  | 0, _, _, _, _, _, _ => throw (gs "out of fuel")
  | fuel + 1, rsf, et, fieldName, pfx, i, acc =>
    let elem0 := zeroValue et
    let pfxI := fieldName ++ '_' :: natStr i
    let tmp : FieldMeta := ⟨pfxI, rsf.declaredTags⟩
    match et with
    | .tstruct fts =>
      if hasParserOrSetter elem0 et then do
        -- struct elements with a parser or setter (none exist in the
        -- model universe; kept for structural fidelity)
        let e ← parseStructField m3 w fuel tmp et elem0 pfx
        if isZero e then pure (.vslice false acc)
        else walkSliceLoop m3 w fuel rsf et fieldName pfx (i + 1) (acc ++ [e])
      else
        match walkFields m3 w fuel fts (zeroFields fts) (pfx ++ [pfxI]) with
        | .error e => throw e
        | .ok vs =>
          let e := GoValue.vstruct vs
          if isZero e then pure (.vslice false acc)
          else walkSliceLoop m3 w fuel rsf et fieldName pfx (i + 1) (acc ++ [e])
    | _ =>
      match GetValue3 m3 tmp pfx with
      | .error e => throw e
      | .ok (v2, found) =>
        if !found then pure (.vslice false acc)
        else do
          let e ← parseField et elem0 v2
          walkSliceLoop m3 w fuel rsf et fieldName pfx (i + 1) (acc ++ [e])

end

/-- `walker.Walk` (lines 162-174): the root must be a pointer to a
struct, checked before anything is visited; the result pairs the error
(if any) with the (then unchanged) argument. -/
def Walk (m3 : Matcher3) (w : WalkerCfg) (fuel : Nat) (t : GoType)
    (v : GoValue) : Option GoStr × GoValue :=
  match t, v with
  | .tptr (.tstruct fts), .vptr (some (.vstruct vs)) =>
    match walkFields m3 w fuel fts vs [] with
    | .ok vs2 => (none, .vptr (some (.vstruct vs2)))
    | .error e => (some e, v)
  | _, _ => (some (gs "expected a pointer to a struct"), v)

/-- Whether the root argument of `Walk` is a pointer to a struct (with,
in the model's typed terms, a matching struct value behind it). -/
def isPtrToStructArg : GoType → GoValue → Bool
  | .tptr (.tstruct _), .vptr (some (.vstruct _)) => true
  | _, _ => false

/-! ### Concrete instances used by the walker claims -/

/-- A file system on which every read fails; no walker claim reads a
file. -/
def fsN : GoStr → Except GoStr GoStr := fun _ => .error (gs "file read error")

/-- The default walker (initialization mode `values`). -/
def wValues : WalkerCfg := newWalker .values

/-- C3 environment: `X_0` and `X_2` loaded, no `X_1`. -/
def mC3 : Matcher3 := newMatcher3 [(gs "X_0", gs "a"), (gs "X_2", gs "c")] false fsN

/-- C3 root type: a struct with one exported field `X : []string`. -/
def tC3 : GoType := .tptr (.tstruct [(gs "X", [], true, .tslice .tstring)])

/-- C3 root value: pointer to the zeroed struct. -/
def vC3 : GoValue := .vptr (some (.vstruct [.vslice true []]))

/-- C10 environment: only `X_0_ITEMS`, set to the empty string. -/
def mC10 : Matcher3 := newMatcher3 [(gs "X_0_ITEMS", [])] false fsN

/-- C10 slice-element type: `struct { Items []string }`. -/
def etC10 : GoType := .tstruct [(gs "Items", [], true, .tslice .tstring)]

/-! ## The initialization-mode commit policy with `Any`

`envcfg.WithInitAny` (envcfg.go lines 122-130) selects a fourth
initialization mode on a walker whose source is not part of this
snapshot (the walker under `internal/walker` knows only `always`,
`never`, `values`).  The `Any`-capable commit policy is therefore
modelled from the specification. -/

/-- Modelled from the spec: the full initialization-mode enum
`{Values, Any, Always, Never}` of §3; the walker source in this snapshot
lacks `Any`. -/
inductive InitModeS where
  | values : InitModeS
  | any : InitModeS
  | always : InitModeS
  | never : InitModeS
deriving DecidableEq

/-- Modelled from the spec: a sub-field of a provisionally expanded
optional struct, reduced to its resolved lookup key and its `default`
option. -/
structure SLeafField where
  key : GoStr
  dflt : Option GoStr

/-- Modelled from the spec: the matcher's resolved value for one
sub-field — the loaded value when the key is present (concrete), else
the default literal marked `isDefault=true`, else absent. -/
def resolveLeafS (env : Env) (f : SLeafField) : Option (GoStr × Bool) :=
  match lookupA env f.key with
  | some v => some (v, false)
  | none => f.dflt.map (fun d => (d, true))

/-- Modelled from the spec (§4.5): whether a provisionally expanded
optional sub-structure is committed: `Never` never, `Always` always,
`Values` only when the nested visit produced at least one concrete
(non-default) value, `Any` when it produced any value at all —
default-sourced values count under `Any` but not under `Values`. -/
def commitS (mode : InitModeS) (sawConcrete sawValue : Bool) : Bool :=
  match mode with
  | .never => false
  | .always => true
  | .values => sawConcrete
  | .any => sawValue

/-- Modelled from the spec: the nested visit of a nil struct-pointer
field: resolve every sub-field, then commit the populated struct (the
resolved values, zeros for the absent ones) into the parent or leave the
field nil, per the commit policy. -/
def walkPtrStructS (env : Env) (mode : InitModeS) (fields : List SLeafField) :
    Option (List GoStr) :=
  let rs := fields.map (resolveLeafS env)
  let vals := fields.map (fun f => ((resolveLeafS env f).map Prod.fst).getD [])
  let sawConcrete := rs.any (fun r =>
    match r with
    | some (_, false) => true
    | _ => false)
  let sawValue := rs.any Option.isSome
  if commitS mode sawConcrete sawValue then some vals else none

/-! ## The loader (internal/loader, `env.Load`)

`env.Load` merges the defaults map into the result first, then iterates
the sources in order, writing each source entry that passes the filters
under its transformed key; map writes are modelled by `updateA`.  (The
later `Loader.Load` variant in the snapshot is the same merge without
the defaults step.) -/

/-- A loader source: its `Load()` map (order = Go map iteration order;
keys of one source are unique, as in any Go map). -/
structure LSource where
  entries : List (GoStr × GoStr)

/-- The `env` loader struct (sources, defaults, filters, transforms). -/
structure LoaderEnv where
  sources : List LSource
  defaults : List (GoStr × GoStr)
  filters : List (GoStr → Bool)
  transforms : List (GoStr → GoStr)

/-- `env.matches` (lines 218-232): no filters means everything matches;
otherwise any filter suffices. -/
def lMatches (e : LoaderEnv) (k : GoStr) : Bool :=
  e.filters.isEmpty || e.filters.any (fun f => f k)

/-- `env.transform` (lines 234-240): apply the transforms in order. -/
def lTransform (e : LoaderEnv) (k : GoStr) : GoStr :=
  e.transforms.foldl (fun k t => t k) k

/-- `env.Load` (lines 200-216): defaults first, then each source in
order, filtered and key-transformed, later writes overriding earlier
ones. -/
def loaderLoad (e : LoaderEnv) : Env :=
  let base := e.defaults.foldl (fun acc p => updateA acc p.1 p.2) ([] : Env)
  e.sources.foldl (fun acc s =>
    s.entries.foldl (fun acc p =>
      if lMatches e p.1 then updateA acc (lTransform e p.1) p.2 else acc) acc) base

/-- Lookup across a source list with later sources taking precedence
(the reversal makes the last hit win). -/
def sourcesLookup (ss : List LSource) (k : GoStr) : Option GoStr :=
  ss.reverse.findSome? (fun s => lookupA s.entries k)

/-- C9 instance: an unexported field (which even carries a `required`
tag). -/
def fld9 : FieldT := (gs "a_field", [(gs "required", ⟨gs "true", []⟩)], false, .tstring)

/-- C9 instance: a struct type with the single unexported field. -/
def fts9 : List FieldT := [fld9]

/-- C9 instance: the struct's field values. -/
def vs9 : List GoValue := [.vstr (gs "keep")]

/-- C3 instance: the values behind `X_0` (`X_1` onward absent). -/
def valC3 : Nat → GoStr := fun j => if j = 0 then gs "a" else []

/-- C8 instance: two sources both defining `A`, defaults defining `A`
and `B`. -/
def e8 : LoaderEnv :=
  ⟨[⟨[(gs "A", gs "s1")]⟩, ⟨[(gs "A", gs "s2"), (gs "C", gs "s2c")]⟩],
   [(gs "A", gs "d"), (gs "B", gs "db")], [], []⟩

/-! ### Reduction helpers for the `Except` monad -/

theorem exPure {α : Type} (a : α) : (pure a : Except GoStr α) = Except.ok a := rfl

theorem exThrow {α : Type} (e : GoStr) : (throw e : Except GoStr α) = .error e := rfl

theorem exBindOk {α β : Type} (a : α) (f : α → Except GoStr β) :
    (Except.ok a >>= f : Except GoStr β) = f a := rfl

theorem exBindErr {α β : Type} (e : GoStr) (f : α → Except GoStr β) :
    ((Except.error e : Except GoStr α) >>= f : Except GoStr β) = .error e := rfl

theorem exMapOk {α β : Type} (a : α) (f : α → β) :
    (f <$> (Except.ok a : Except GoStr α) : Except GoStr β) = .ok (f a) := rfl

theorem exMapErr {α β : Type} (e : GoStr) (f : α → β) :
    (f <$> (Except.error e : Except GoStr α) : Except GoStr β) = .error e := rfl
/-! ## Theorems -/

theorem toSnakeCaseAux_eq :
    ∀ (t s : GoStr) (i : Nat), s.drop i = t →
      toSnakeCaseAux (prevAt s i) t =
        ((List.range t.length).map (fun j => snakePieceClaim s (i + j))).flatten := by
  intro t
  induction t with
  | nil => intro s i h; simp [toSnakeCaseAux]
  | cons c rest ih =>
    intro s i h
    have hi : i < s.length := by
      by_contra hle
      push_neg at hle
      rw [List.drop_eq_nil_of_le hle] at h
      exact (List.cons_ne_nil _ _) h.symm
    have hc : s[i]? = some c := by
      have h0 : (s.drop i)[0]? = s[i + 0]? := List.getElem?_drop s i 0
      rw [h] at h0
      simpa using h0.symm
    have hrest : s.drop (i + 1) = rest := by
      have : s.drop (i + 1) = (s.drop i).drop 1 := by
        rw [List.drop_drop]
      rw [this, h]
      simp
    have hnext : s[i + 1]? = rest.head? := by
      have h0 : (s.drop (i + 1))[0]? = s[(i + 1) + 0]? := List.getElem?_drop s (i + 1) 0
      rw [hrest] at h0
      simpa [List.head?_eq_getElem?] using h0.symm
    have hlen : s.length = i + 1 + rest.length := by
      have := congrArg List.length h
      simp [List.length_drop] at this
      omega
    have hprev1 : prevAt s (i + 1) = some c := by
      simp [prevAt, hc]
    rw [toSnakeCaseAux]
    rw [show (c :: rest).length = rest.length + 1 from rfl, List.range_succ_eq_map]
    rw [List.map_cons, List.flatten_cons]
    have ihr := ih s (i + 1) hrest
    rw [hprev1] at ihr
    rw [ihr]
    congr 1
    · -- head piece
      simp only [Nat.add_zero]
      unfold snakePiece snakePieceClaim underscoreAt
      simp only [hc]
      rcases Nat.eq_zero_or_pos i with hz | hpos
      · subst hz
        simp [prevAt]
      · have hip : i - 1 < s.length := by omega
        obtain ⟨p, hp⟩ : ∃ p, s[i-1]? = some p := by
          simp [List.getElem?_eq_getElem hip]
        have hprev : prevAt s i = some p := by
          simp [prevAt, Nat.pos_iff_ne_zero.mp hpos, hp]
        rw [hprev]
        have hlt : (decide (i < s.length - 1)) = (decide (0 < rest.length)) := by
          simp only [decide_eq_decide]
          omega
        have hlow1 : isLowerAt s (i - 1) = p.isLower := by
          simp [isLowerAt, hp]
        simp only [hlow1, hlt, hc]
        have hnextm : (match rest.head? with
            | some nxt => nxt.isLower
            | none => false) = (decide (0 < rest.length) && isLowerAt s (i+1)) := by
          cases hr : rest with
          | nil => simp [hr, isLowerAt, hnext]
          | cons a as =>
            simp [isLowerAt, hnext, hr, List.head?]
        rw [hnextm]
        simp [hpos]
    · -- tail pieces
      rw [List.map_map]
      congr 1
      have hfun : ((fun j => snakePieceClaim s (i + j)) ∘ Nat.succ) =
          (fun j => snakePieceClaim s (i + 1 + j)) := by
        funext j
        simp only [Function.comp_apply]
        congr 1
        omega
      rw [hfun]

/-- C6: the synthesized snake_case candidate inserts an underscore before an
uppercase letter exactly when that letter is adjacent to a lowercase letter
on either side (lower-casing the whole result); a run of capitals is one
word unless followed by a lowercase letter, in which case the boundary
falls before the last capital: `FooBar ↦ foo_bar`, `HTTPServer ↦
http_server`, `DatabaseURL ↦ database_url`. -/
theorem claim_C6_snake_case :
    (∀ s : GoStr, toSnakeCase s = snakeCaseClaim s) ∧
    toSnakeCase (gs "FooBar") = gs "foo_bar" ∧
    toSnakeCase (gs "HTTPServer") = gs "http_server" ∧
    toSnakeCase (gs "DatabaseURL") = gs "database_url" := by
  refine ⟨fun s => ?_, by decide, by decide, by decide⟩
  have h := toSnakeCaseAux_eq s s 0 (by simp)
  have h0 : prevAt s 0 = none := by simp [prevAt]
  rw [h0] at h
  rw [toSnakeCase, h, snakeCaseClaim]
  congr 1
  have hfun : (fun j => snakePieceClaim s (0 + j)) = snakePieceClaim s := by
    funext j
    simp
  rw [hfun]


/-! ### C2 — map-of-struct key enumeration -/

/-- For a loaded key of the shape `PFX_mid_SUFFIX`, `getMapKey` returns
the text between the prefix and the suffix, underscores stripped,
lower-cased. -/
theorem getMapKey1_between (pfx mid suffix : GoStr) :
    getMapKey1 (pfx ++ '_' :: (mid ++ '_' :: suffix)) pfx suffix = goLower mid := by
  have hkey : pfx ++ '_' :: (mid ++ '_' :: suffix) =
      (pfx ++ ['_']) ++ (mid ++ '_' :: suffix) := by
    simp
  unfold getMapKey1
  have h1 : goHasPrefix (pfx ++ '_' :: (mid ++ '_' :: suffix)) pfx = true := by
    simp [goHasPrefix, List.isPrefixOf_iff_prefix]
  rw [h1]
  simp only [Bool.not_true, Bool.false_eq_true, if_false]
  have h2 : goTrimPrefix (pfx ++ '_' :: (mid ++ '_' :: suffix)) (pfx ++ ['_']) =
      mid ++ '_' :: suffix := by
    rw [goTrimPrefix, hkey]
    rw [if_pos]
    · exact List.drop_left _ _
    · simp [List.isPrefixOf_iff_prefix]
  rw [h2]
  have h3 : goHasSuffix (mid ++ '_' :: suffix) suffix = true := by
    simp [goHasSuffix, List.isSuffixOf_iff_suffix]
    exact ⟨mid ++ ['_'], by simp⟩
  rw [h3]
  simp only [if_true]
  have h4 : goTrimSuffix (mid ++ '_' :: suffix) ('_' :: suffix) = mid := by
    rw [goTrimSuffix, if_pos]
    · have hl : (mid ++ '_' :: suffix).length - ('_' :: suffix).length = mid.length := by
        simp
      rw [hl]
      exact List.take_left _ _
    · simp [List.isSuffixOf_iff_suffix]
  rw [h4]

/-- On the C2 element struct (`Key`, `OtherKey`), the enumeration's
per-key choice is the candidate with the longest tag value whose
`getMapKey` split succeeds: the snake-cased `OTHER_KEY` (length 9) beats
`OTHERKEY` (8), which beats `KEY` (3). -/
theorem flmk_longest_inst (key pfx : GoStr) :
    findLongestMatchingKey1 mC2 key pfx pathC2 =
      (if getMapKey1 key pfx (gs "OTHER_KEY") ≠ [] then
        getMapKey1 key pfx (gs "OTHER_KEY")
      else if getMapKey1 key pfx (gs "OTHERKEY") ≠ [] then
        getMapKey1 key pfx (gs "OTHERKEY")
      else if getMapKey1 key pfx (gs "KEY") ≠ [] then
        getMapKey1 key pfx (gs "KEY")
      else []) := by
  have h : findLongestMatchingKey1 mC2 key pfx pathC2 =
      (flmkStep key pfx
        (flmkStep key pfx
          (flmkStep key pfx
            (flmkStep key pfx (([] : GoStr), 0) (gs "Key"))
            (gs "key"))
          (gs "OtherKey"))
        (gs "other_key")).1 := rfl
  have hu1 : goUpper (gs "Key") = gs "KEY" := rfl
  have hu2 : goUpper (gs "key") = gs "KEY" := rfl
  have hu3 : goUpper (gs "OtherKey") = gs "OTHERKEY" := rfl
  have hu4 : goUpper (gs "other_key") = gs "OTHER_KEY" := rfl
  have l1 : List.length (gs "Key") = 3 := rfl
  have l2 : List.length (gs "key") = 3 := rfl
  have l3 : List.length (gs "OtherKey") = 8 := rfl
  have l4 : List.length (gs "other_key") = 9 := rfl
  rcases eq_or_ne (getMapKey1 key pfx (gs "KEY")) [] with hK | hK <;>
    rcases eq_or_ne (getMapKey1 key pfx (gs "OTHERKEY")) [] with hO1 | hO1 <;>
      rcases eq_or_ne (getMapKey1 key pfx (gs "OTHER_KEY")) [] with hO2 | hO2 <;>
        simp [h, flmkStep, hu1, hu2, hu3, hu4, hK, hO1, hO2, l1, l2, l3, l4]

/-- C2: map-key enumeration for a map-of-structs field picks, per loaded
key sharing the field's prefix, the longest matching declared-field
suffix, returning the lower-cased text between prefix and suffix; for
element fields `Key`/`OtherKey` and loaded keys `M_A_KEY`,
`M_B_OTHER_KEY` it yields exactly `{a, b}`. -/
theorem claim_C2_map_key_enumeration :
    getStructMapKeys1 mC2 pathC2 = [gs "a", gs "b"] ∧
    (∀ pfx mid suffix : GoStr,
      getMapKey1 (pfx ++ '_' :: (mid ++ '_' :: suffix)) pfx suffix = goLower mid) ∧
    (∀ key pfx : GoStr,
      findLongestMatchingKey1 mC2 key pfx pathC2 =
        (if getMapKey1 key pfx (gs "OTHER_KEY") ≠ [] then
          getMapKey1 key pfx (gs "OTHER_KEY")
        else if getMapKey1 key pfx (gs "OTHERKEY") ≠ [] then
          getMapKey1 key pfx (gs "OTHERKEY")
        else if getMapKey1 key pfx (gs "KEY") ≠ [] then
          getMapKey1 key pfx (gs "KEY")
        else [])) :=
  ⟨by decide, getMapKey1_between, flmk_longest_inst⟩

/-! ### C4 — defaults and the post-resolution option steps -/

/-- C4 counterexample: with the lookup absent, a `default:""` together
with `notempty:"true"` yields no error (the claim demands one), and with
`default:"d"` and `file:"true"` the default literal is returned as-is
even though every file read fails (the claim demands the default be read
as a file path). -/
theorem claim_C4_counterexample :
    optLookup mC4 (tagMapOf fmC4a) (gs "notempty") = some (gs "true") ∧
    optLookup mC4 (tagMapOf fmC4a) (gs "default") = some [] ∧
    getValue1 mC4 pathC4a [] = none ∧
    GetValue1 mC4 pathC4a = .ok ([], true) ∧
    optLookup mC4 (tagMapOf fmC4b) (gs "file") = some (gs "true") ∧
    mC4.fs (gs "d") = .error (gs "file read error") ∧
    GetValue1 mC4 pathC4b = .ok (gs "d", true) :=
  ⟨rfl, rfl, rfl, rfl, rfl, rfl, rfl⟩

/-- C4 (amended): when the lookup is absent, not required, and a default
is present, `GetValue` returns the default literal with `found=true`,
bypassing the not-empty and file-read steps entirely — the result does
not depend on the file system or the not-empty option — with only
`${...}` expansion applied when the expand option is set. -/
theorem claim_C4_default_bypass (m : Matcher1) (path : List TagMap1)
    (last : TagMap1) (d : GoStr)
    (hl : path.getLast? = some last)
    (hg : getValue1 m path [] = none)
    (hr : optLookup m last m.requiredTag = none)
    (hd : optLookup m last m.defaultTag = some d) :
    GetValue1 m path =
      .ok ((if (optLookup m last m.expandTag).isSome then expandValue1 m d
            else d), true) := by
  unfold GetValue1
  simp only [hl, hg, hr, hd]
  cases hoe : (optLookup m last m.expandTag).isSome <;> simp [hoe]

/-- C4 witness: the amended theorem applied at the `default:"d"` +
`file:"true"` instance. -/
theorem claim_C4_witness : GetValue1 mC4 pathC4b = .ok (gs "d", true) :=
  claim_C4_default_bypass mC4 pathC4b (tagMapOf fmC4b) (gs "d") rfl rfl rfl rfl

/-! ### C5 — `disableFallback` scope -/

/-- C5 counterexample: with `disableFallback` set and a field carrying no
primary (`env`) annotation, exact resolution finds nothing, yet
`HasPrefix` still matches through a fallback candidate — so the
restriction does not apply to the prefix-existence check. -/
theorem claim_C5_counterexample :
    mC5.disableFallback = true ∧
    lookupA tmC5.tags (gs "env") = none ∧
    getValue1 mC5 [tmC5] [] = none ∧
    HasPrefix1 mC5 [tmC5] = true :=
  ⟨rfl, rfl, rfl, rfl⟩

/-- C5 (amended): under `disableFallback`, only the primary annotation is
eligible in exact resolution (`getValue` equals the primary-only descent),
but the prefix-existence check ignores the flag entirely: its result is
unchanged by flipping `disableFallback`. -/
theorem claim_C5_fallback_scope :
    (∀ (m : Matcher1) (b : Bool) (path : List TagMap1) (pre : GoStr),
      hasPrefix1 {m with disableFallback := b} path pre = hasPrefix1 m path pre) ∧
    (∀ (m : Matcher1), m.disableFallback = true →
      ∀ (path : List TagMap1) (pre : GoStr),
        getValue1 m path pre = getValuePrimaryOnly m path pre) := by
  constructor
  · intro m b path pre
    rfl
  · intro m hdf path
    induction path with
    | nil => intro pre; rfl
    | cons cur rest ih =>
      intro pre
      simp only [getValue1, getValuePrimaryOnly, candVals, hdf]
      have hfilter : (cur.tags.filter
          (fun p => !(p.2.value == [] || isKnownTag1 m p.1 || true))) = [] := by
        simp
      rw [hfilter]
      cases h : lookupA cur.tags m.tagName with
      | none => simp
      | some tg =>
        simp only [ih]
        cases hfv : getValuePrimaryOnly m rest (chain pre tg.value) <;>
          simp [List.findSome?, hfv]

/-- C5 witness: the amended theorem applied at the concrete instance. -/
theorem claim_C5_witness :
    hasPrefix1 {mC5 with disableFallback := false} [tmC5] [] =
      hasPrefix1 mC5 [tmC5] [] ∧
    getValue1 mC5 [tmC5] [] = getValuePrimaryOnly mC5 [tmC5] [] :=
  ⟨claim_C5_fallback_scope.1 mC5 false [tmC5] [],
   claim_C5_fallback_scope.2 mC5 rfl [tmC5] []⟩

/-! ### Walker, init-mode and loader claims -/

/-- C7: when the root argument of `Walk` is not a pointer to a struct,
the parse fails immediately with the not-a-pointer error and the argument
value is returned completely unchanged — no field is visited or mutated
before this check. -/
theorem claim_C7_root_not_pointer (m3 : Matcher3) (w : WalkerCfg) (fuel : Nat)
    (t : GoType) (v : GoValue) (h : isPtrToStructArg t v = false) :
    Walk m3 w fuel t v = (some (gs "expected a pointer to a struct"), v) := by
  unfold Walk
  split
  · simp [isPtrToStructArg] at h
  · rfl

/-- C7 witness: the theorem applied at a plain string root. -/
theorem claim_C7_witness :
    Walk mC3 wValues 20 .tstring (.vstr (gs "zz")) =
      (some (gs "expected a pointer to a struct"), .vstr (gs "zz")) :=
  claim_C7_root_not_pointer mC3 wValues 20 _ _ rfl

/-- `parseField` on a string target writes the value (leaving the empty
string as the zero value, which coincides). -/
theorem parseField_string (v : GoStr) :
    parseField .tstring (.vstr []) v = .ok (.vstr v) := by
  unfold parseField
  by_cases h : v = [] <;> simp [h] <;> rfl

/-- The indexed-probing loop: when indices `0..n-1` resolve and index `n`
does not, the loop returns exactly the parsed leading elements. -/
theorem walkSliceLoop_spec (m3 : Matcher3) (w : WalkerCfg) (rsf : FieldMeta)
    (fieldName : GoStr) (pfx : List GoStr) (val : Nat → GoStr) (n : Nat)
    (hfound : ∀ j, j < n →
      GetValue3 m3 ⟨fieldName ++ '_' :: natStr j, rsf.declaredTags⟩ pfx =
        .ok (val j, true))
    (hstop : ∃ v0,
      GetValue3 m3 ⟨fieldName ++ '_' :: natStr n, rsf.declaredTags⟩ pfx =
        .ok (v0, false)) :
    ∀ (d k : Nat) (acc : List GoValue) (fuel : Nat), k + d = n → d < fuel →
      walkSliceLoop m3 w fuel rsf .tstring fieldName pfx k acc =
        .ok (.vslice false
          (acc ++ (List.range' k d).map (fun j => GoValue.vstr (val j)))) := by
  intro d
  induction d with
  | zero =>
    intro k acc fuel hk hf
    obtain ⟨fuel, rfl⟩ : ∃ f2, fuel = f2 + 1 := ⟨fuel - 1, by omega⟩
    obtain ⟨v0, hv0⟩ := hstop
    have hkn : k = n := by omega
    subst hkn
    simp only [walkSliceLoop, hv0]
    norm_num
    rfl
  | succ d ih =>
    intro k acc fuel hk hf
    obtain ⟨fuel, rfl⟩ : ∃ f2, fuel = f2 + 1 := ⟨fuel - 1, by omega⟩
    have hk2 : k < n := by omega
    simp only [walkSliceLoop, hfound k hk2]
    simp only [zeroValue, parseField_string]
    simp only [Bool.not_true, Bool.false_eq_true, if_false]
    have hrec := ih (k + 1) (acc ++ [.vstr (val k)]) fuel (by omega) (by omega)
    rw [List.range'_succ, List.map_cons]
    have hbind : (do
        let e ← Except.ok (GoValue.vstr (val k))
        walkSliceLoop m3 w fuel rsf GoType.tstring fieldName pfx (k + 1) (acc ++ [e])) =
        walkSliceLoop m3 w fuel rsf GoType.tstring fieldName pfx (k + 1)
          (acc ++ [GoValue.vstr (val k)]) := rfl
    rw [hbind, hrec]
    simp

/-- C3: indexed slice enumeration probes indices 0, 1, 2, … and stops at
the first index with no hit, so the resulting slice holds exactly the
leading resolved indices, gaps truncating the rest; with `X_0` and `X_2`
loaded (no `X_1`) the result has length 1, holding only `X_0`'s
element. -/
theorem claim_C3_slice_gaps :
    (∀ (m3 : Matcher3) (w : WalkerCfg) (rsf : FieldMeta) (fieldName : GoStr)
      (pfx : List GoStr) (val : Nat → GoStr) (n fuel : Nat) (b : Bool),
      (∀ j, j < n →
        GetValue3 m3 ⟨fieldName ++ '_' :: natStr j, rsf.declaredTags⟩ pfx =
          .ok (val j, true)) →
      (∃ v0,
        GetValue3 m3 ⟨fieldName ++ '_' :: natStr n, rsf.declaredTags⟩ pfx =
          .ok (v0, false)) →
      GetValue3 m3 rsf pfx = .ok ([], b) →
      n + 1 < fuel →
      walkSlice m3 w fuel rsf .tstring fieldName pfx =
        .ok (.vslice false ((List.range n).map (fun j => GoValue.vstr (val j)))) ∧
      ((List.range n).map (fun j => GoValue.vstr (val j))).length = n) ∧
    Walk mC3 wValues 20 tC3 vC3 =
      (none, .vptr (some (.vstruct [.vslice false [.vstr (gs "a")]]))) := by
  refine ⟨?_, rfl⟩
  intro m3 w rsf fieldName pfx val n fuel b hfound hstop hself hfuel
  obtain ⟨fuel, rfl⟩ : ∃ f2, fuel = f2 + 1 := ⟨fuel - 1, by omega⟩
  refine ⟨?_, by simp⟩
  simp only [walkSlice, hself]
  rw [if_neg (by simp)]
  have h := walkSliceLoop_spec m3 w rsf fieldName pfx val n hfound hstop n 0 [] fuel
    (by omega) (by omega)
  rw [List.range_eq_range']
  simpa using h

/-- C3 witness: the general statement applied at the `X_0`/`X_2`
instance with `n = 1`. -/
theorem claim_C3_witness :
    walkSlice mC3 wValues 5 ⟨gs "X", []⟩ .tstring (gs "X") [] =
      .ok (.vslice false ((List.range 1).map (fun j => GoValue.vstr (valC3 j)))) ∧
    ((List.range 1).map (fun j => GoValue.vstr (valC3 j))).length = 1 :=
  claim_C3_slice_gaps.1 mC3 wValues ⟨gs "X", []⟩ (gs "X") [] valC3 1 5 false
    (fun j hj => by
      have h0 : j = 0 := by omega
      subst h0
      rfl)
    ⟨[], rfl⟩ rfl (by omega)

/-- An unexported field's value survives the walk unchanged. -/
theorem walkFields_unexported_preserved (m3 : Matcher3) (w : WalkerCfg) :
    ∀ (fts : List FieldT) (i : Nat) (f : FieldT) (fuel : Nat)
      (vs : List GoValue) (pfx : List GoStr),
      fts[i]? = some f → f.2.2.1 = false →
      ∀ vs2, walkFields m3 w fuel fts vs pfx = .ok vs2 → vs2[i]? = vs[i]? := by
  intro fts
  induction fts with
  | nil => intro i f fuel vs pfx hi; simp at hi
  | cons ft fts ih =>
    intro i f fuel vs pfx hi hexp vs2 hok
    match fuel with
    | 0 => simp [walkFields] at hok
    | fuel + 1 =>
      cases vs with
      | nil =>
        simp [walkFields, exPure] at hok
        subst hok
        simp
      | cons v vtail =>
        cases i with
        | zero =>
          simp at hi
          subst hi
          rw [walkFields] at hok
          rw [if_pos (by simp [hexp])] at hok
          cases hr : walkFields m3 w fuel fts vtail pfx with
          | error e => rw [hr] at hok; simp [exBindOk, exBindErr, exPure] at hok
          | ok rest =>
            rw [hr] at hok
            simp [exBindOk, exBindErr, exPure] at hok
            subst hok
            simp
        | succ i =>
          simp at hi
          rw [walkFields] at hok
          by_cases hft : ft.2.2.1 = false
          · rw [if_pos (by simp [hft])] at hok
            cases hr : walkFields m3 w fuel fts vtail pfx with
            | error e => rw [hr] at hok; simp [exBindOk, exBindErr, exPure] at hok
            | ok rest =>
              rw [hr] at hok
              simp [exBindOk, exBindErr, exPure] at hok
              subst hok
              simpa using ih i f fuel vtail pfx hi hexp rest hr
          · rw [if_neg (by simp [Bool.not_eq_false] at hft; simp [hft])] at hok
            cases hw : walkStructField m3 w fuel ⟨ft.1, ft.2.1⟩ ft.2.2.2 v pfx with
            | error e => rw [hw] at hok; simp [exBindOk, exBindErr, exPure] at hok
            | ok v2 =>
              rw [hw] at hok
              cases hr : walkFields m3 w fuel fts vtail pfx with
              | error e => rw [hr] at hok; simp [exBindOk, exBindErr, exPure] at hok
              | ok rest =>
                rw [hr] at hok
                simp [exBindOk, exBindErr, exPure] at hok
                subst hok
                simpa using ih i f fuel vtail pfx hi hexp rest hr

/-- Replacing an unexported field's value replaces it in the result and
changes nothing else — the error outcome included. -/
theorem walkFields_unexported_frame (m3 : Matcher3) (w : WalkerCfg) :
    ∀ (fts : List FieldT) (i : Nat) (f : FieldT) (fuel : Nat)
      (vs : List GoValue) (pfx : List GoStr) (x : GoValue),
      fts[i]? = some f → f.2.2.1 = false →
      walkFields m3 w fuel fts (vs.set i x) pfx =
        (walkFields m3 w fuel fts vs pfx).map (fun vs2 => vs2.set i x) := by
  intro fts
  induction fts with
  | nil => intro i f fuel vs pfx x hi; simp at hi
  | cons ft fts ih =>
    intro i f fuel vs pfx x hi hexp
    match fuel with
    | 0 => simp [walkFields, exThrow, Except.map]
    | fuel + 1 =>
      cases vs with
      | nil => simp [walkFields, exPure, Except.map]
      | cons v vtail =>
        cases i with
        | zero =>
          simp at hi
          subst hi
          rw [List.set_cons_zero]
          rw [walkFields, walkFields]
          rw [if_pos (by simp [hexp]), if_pos (by simp [hexp])]
          cases hr : walkFields m3 w fuel fts vtail pfx with
          | error e => simp [hr, exBindErr, Except.map]
          | ok rest => simp [hr, exBindOk, exPure, Except.map]
        | succ i =>
          simp at hi
          rw [List.set_cons_succ]
          rw [walkFields, walkFields]
          by_cases hft : ft.2.2.1 = false
          · rw [if_pos (by simp [hft]), if_pos (by simp [hft])]
            rw [ih i f fuel vtail pfx x hi hexp]
            cases hr : walkFields m3 w fuel fts vtail pfx with
            | error e => simp [hr, exBindErr, Except.map]
            | ok rest => simp [hr, exBindOk, exPure, Except.map]
          · rw [if_neg (by simp [Bool.not_eq_false] at hft; simp [hft]),
               if_neg (by simp [Bool.not_eq_false] at hft; simp [hft])]
            cases hw : walkStructField m3 w fuel ⟨ft.1, ft.2.1⟩ ft.2.2.2 v pfx with
            | error e => simp [hw, exBindErr, Except.map]
            | ok v2 =>
              rw [ih i f fuel vtail pfx x hi hexp]
              cases hr : walkFields m3 w fuel fts vtail pfx with
              | error e => simp [hw, hr, exBindOk, exBindErr, Except.map]
              | ok rest => simp [hw, hr, exBindOk, exPure, Except.map]

/-- An unexported field's name, tags and type are never consulted:
replacing the whole field metadata by any other unexported field changes
nothing, so no key lookup is performed for it and it can never cause an
error, whatever the loaded mapping holds. -/
theorem walkFields_unexported_meta (m3 : Matcher3) (w : WalkerCfg) :
    ∀ (fts : List FieldT) (i : Nat) (f : FieldT) (fuel : Nat)
      (vs : List GoValue) (pfx : List GoStr) (g : FieldT),
      fts[i]? = some f → f.2.2.1 = false → g.2.2.1 = false →
      walkFields m3 w fuel (fts.set i g) vs pfx =
        walkFields m3 w fuel fts vs pfx := by
  intro fts
  induction fts with
  | nil => intro i f fuel vs pfx g hi; simp at hi
  | cons ft fts ih =>
    intro i f fuel vs pfx g hi hexp hgexp
    match fuel with
    | 0 => simp [walkFields]
    | fuel + 1 =>
      cases vs with
      | nil =>
        cases i with
        | zero => simp [walkFields]
        | succ i => simp [walkFields]
      | cons v vtail =>
        cases i with
        | zero =>
          simp at hi
          subst hi
          rw [List.set_cons_zero]
          rw [walkFields, walkFields]
          rw [if_pos (by simp [hgexp]), if_pos (by simp [hexp])]
        | succ i =>
          simp at hi
          rw [List.set_cons_succ]
          rw [walkFields, walkFields]
          rw [ih i f fuel vtail pfx g hi hexp hgexp]

/-- C9: for every struct visited by the walker, unexported (non-settable)
fields are skipped entirely: their values are preserved and framed off
from the rest of the walk, and their metadata (hence any lookup or error
they could cause) is never consulted, regardless of the loaded mapping. -/
theorem claim_C9_unexported_fields (m3 : Matcher3) (w : WalkerCfg)
    (fts : List FieldT) (i : Nat) (f : FieldT) (fuel : Nat)
    (vs : List GoValue) (pfx : List GoStr)
    (hi : fts[i]? = some f) (hexp : f.2.2.1 = false) :
    (∀ vs2, walkFields m3 w fuel fts vs pfx = .ok vs2 → vs2[i]? = vs[i]?) ∧
    (∀ x, walkFields m3 w fuel fts (vs.set i x) pfx =
      (walkFields m3 w fuel fts vs pfx).map (fun vs2 => vs2.set i x)) ∧
    (∀ g : FieldT, g.2.2.1 = false →
      walkFields m3 w fuel (fts.set i g) vs pfx =
        walkFields m3 w fuel fts vs pfx) :=
  ⟨fun vs2 h => walkFields_unexported_preserved m3 w fts i f fuel vs pfx hi hexp vs2 h,
   fun x => walkFields_unexported_frame m3 w fts i f fuel vs pfx x hi hexp,
   fun g hg => walkFields_unexported_meta m3 w fts i f fuel vs pfx g hi hexp hg⟩

/-- C9 witness: the frame part applied at a one-field struct whose only
field is unexported (and even tagged `required`). -/
theorem claim_C9_witness :
    walkFields mC3 wValues 5 fts9 (vs9.set 0 (.vstr (gs "other"))) [] =
      (walkFields mC3 wValues 5 fts9 vs9 []).map
        (fun vs2 => vs2.set 0 (.vstr (gs "other"))) :=
  (claim_C9_unexported_fields mC3 wValues fts9 0 fld9 5 vs9 [] rfl rfl).2.1
    (.vstr (gs "other"))

/-- C10: `isZero` counts a slice or map of length 0 as zero even when it
is non-nil (hence not Go-zero); consequently under the default `values`
mode `setIfNeeded` does not commit such a provisional value, and in
indexed slice enumeration a struct element whose only contents are empty
collections counts as zero and terminates the enumeration (the `X_0_ITEMS`
key is loaded, yet the resulting slice is empty). -/
theorem claim_C10_empty_collections :
    (∀ b : Bool, isZero (.vslice b []) = true ∧ isZero (.vmap b []) = true) ∧
    goIsZero (.vslice false []) = false ∧
    goIsZero (.vmap false []) = false ∧
    (∀ (w : WalkerCfg) (tags : List (GoStr × Tag1)) (temp rv : GoValue),
      parseInitMode w tags = .values → isZero temp = true →
      setIfNeeded w tags temp rv = rv) ∧
    lookupA mC10.envVars (gs "X_0_ITEMS") = some [] ∧
    walkSlice mC10 wValues 20 ⟨gs "X", []⟩ etC10 (gs "X") [] =
      .ok (.vslice false []) := by
  refine ⟨fun b => ⟨rfl, rfl⟩, rfl, rfl, ?_, rfl, rfl⟩
  intro w tags temp rv him hz
  simp [setIfNeeded, him, hz]

/-- C10 witness: the `setIfNeeded` part applied to an empty non-nil slice
under the default walker. -/
theorem claim_C10_witness :
    setIfNeeded wValues [] (.vslice false []) (.vptr none) = .vptr none :=
  claim_C10_empty_collections.2.2.2.1 wValues [] (.vslice false []) (.vptr none)
    rfl rfl

/-- C1: a nil struct-pointer field whose nested walk produced only
default-sourced values is left nil under initialization mode `Values`
(the default) but allocated and committed under mode `Any`; in the
concrete instance the only sub-field defaults to `hello`. -/
theorem claim_C1_init_any_asymmetry :
    (∀ (env : Env) (fields : List SLeafField),
      (∀ f ∈ fields, lookupA env f.key = none) →
      (∃ f ∈ fields, f.dflt.isSome) →
      walkPtrStructS env .values fields = none ∧
      (walkPtrStructS env .any fields).isSome = true) ∧
    walkPtrStructS [] .values [⟨gs "VALUE", some (gs "hello")⟩] = none ∧
    walkPtrStructS [] .any [⟨gs "VALUE", some (gs "hello")⟩] = some [gs "hello"] := by
  refine ⟨?_, rfl, rfl⟩
  intro env fields habs hdef
  have hconc : (fields.map (resolveLeafS env)).any (fun r =>
      match r with
      | some (_, false) => true
      | _ => false) = false := by
    simp only [List.any_eq_false, List.mem_map]
    rintro r ⟨f, hf, rfl⟩
    simp only [resolveLeafS, habs f hf]
    cases f.dflt <;> simp
  have hval : (fields.map (resolveLeafS env)).any Option.isSome = true := by
    simp only [List.any_eq_true, List.mem_map]
    obtain ⟨f, hf, hds⟩ := hdef
    refine ⟨resolveLeafS env f, ⟨f, hf, rfl⟩, ?_⟩
    simp only [resolveLeafS, habs f hf]
    simpa using hds
  constructor
  · simp [walkPtrStructS, commitS, hconc]
  · simp [walkPtrStructS, commitS, hval]

/-- C1 witness: the theorem applied at the single-default-field
instance. -/
theorem claim_C1_witness :
    walkPtrStructS [] .values [⟨gs "VALUE", some (gs "hello")⟩] = none ∧
    (walkPtrStructS [] .any [⟨gs "VALUE", some (gs "hello")⟩]).isSome = true :=
  claim_C1_init_any_asymmetry.1 [] [⟨gs "VALUE", some (gs "hello")⟩]
    (fun _ _ => rfl)
    ⟨⟨gs "VALUE", some (gs "hello")⟩, by simp, rfl⟩

/-- Lookup after a map write. -/
theorem lookupA_updateA (m : Env) (k2 : GoStr) (v : GoStr) (k : GoStr) :
    lookupA (updateA m k2 v) k = if k2 = k then some v else lookupA m k := by
  induction m with
  | nil => simp [updateA, lookupA]
  | cons p t ih =>
    by_cases h : p.1 = k2
    · simp only [updateA]
      rw [if_pos h]
      by_cases h2 : k2 = k
      · simp [lookupA, h2]
      · simp [lookupA, h2, h]
    · simp only [updateA]
      rw [if_neg h]
      by_cases h2 : p.1 = k
      · have : ¬k2 = k := fun hc => h (hc ▸ h2)
        simp [lookupA, h2, this]
      · simp [lookupA, h2, ih]

/-- Lookup in a map built by folding writes: the last write wins, the
base map answers otherwise. -/
theorem foldl_update_lookup :
    ∀ (ps : List (GoStr × GoStr)) (acc : Env) (k : GoStr),
      lookupA (ps.foldl (fun m p => updateA m p.1 p.2) acc) k =
        match ps.reverse.findSome?
            (fun p => if p.1 = k then some p.2 else none) with
        | some v => some v
        | none => lookupA acc k := by
  intro ps
  induction ps with
  | nil => intro acc k; simp
  | cons p ps ih =>
    intro acc k
    rw [List.foldl_cons, ih]
    rw [List.reverse_cons, List.findSome?_append]
    cases hr : ps.reverse.findSome? (fun p => if p.1 = k then some p.2 else none) with
    | some v => simp
    | none =>
      simp only [lookupA_updateA]
      by_cases h : p.1 = k <;> simp [h, List.findSome?]

/-- A successful lookup means the key is present. -/
theorem lookupA_mem_keys (t : List (GoStr × GoStr)) (k : GoStr) (v : GoStr) :
    lookupA t k = some v → k ∈ t.map Prod.fst := by
  induction t with
  | nil => simp [lookupA]
  | cons p t ih =>
    by_cases h : p.1 = k
    · simp [lookupA, h]
    · simp only [lookupA, if_neg h, List.map_cons, List.mem_cons]
      intro hl
      exact Or.inr (ih hl)

/-- With unique keys, last-write-wins lookup coincides with plain
lookup. -/
theorem nodup_reverse_findSome (ps : List (GoStr × GoStr)) (k : GoStr)
    (hnd : (ps.map Prod.fst).Nodup) :
    ps.reverse.findSome? (fun p => if p.1 = k then some p.2 else none) =
      lookupA ps k := by
  induction ps with
  | nil => simp [lookupA]
  | cons p t ih =>
    simp only [List.map_cons, List.nodup_cons] at hnd
    rw [List.reverse_cons, List.findSome?_append, ih hnd.2]
    cases hl : lookupA t k with
    | some v =>
      have hk : k ∈ t.map Prod.fst := lookupA_mem_keys t k v hl
      have : ¬p.1 = k := fun hc => hnd.1 (hc ▸ hk)
      simp [lookupA, this, hl]
    | none =>
      by_cases h : p.1 = k <;> simp [lookupA, h, hl, List.findSome?]

/-- Folding the sources over a base map: any source hit (later sources
taking precedence) wins over the base. -/
theorem sourcesFold_lookup :
    ∀ (ss : List LSource) (base : Env) (k : GoStr),
      (∀ s ∈ ss, (s.entries.map Prod.fst).Nodup) →
      lookupA (ss.foldl (fun acc s =>
          s.entries.foldl (fun acc p => updateA acc p.1 p.2) acc) base) k =
        match sourcesLookup ss k with
        | some v => some v
        | none => lookupA base k := by
  intro ss
  induction ss with
  | nil => intro base k _; simp [sourcesLookup]
  | cons s rest ih =>
    intro base k hnd
    rw [List.foldl_cons]
    rw [ih _ k (fun s2 hs2 => hnd s2 (List.mem_cons_of_mem _ hs2))]
    rw [foldl_update_lookup, nodup_reverse_findSome s.entries k (hnd s (List.mem_cons_self s rest))]
    unfold sourcesLookup
    rw [List.reverse_cons, List.findSome?_append]
    cases hr : rest.reverse.findSome? (fun s2 => lookupA s2.entries k) with
    | some v => simp [sourcesLookup, hr]
    | none =>
      simp only [sourcesLookup, hr]
      cases hl : lookupA s.entries k <;> simp [List.findSome?, hl]

/-- C8: the loader merges the defaults map in before any source values:
for every key, the loaded value is the latest source's value when any
source (each a Go map, hence unique keys) provides the key — so sources
always win over defaults on collision, and later sources override earlier
ones — and the default value otherwise. -/
theorem claim_C8_loader_merge (e : LoaderEnv) (k : GoStr)
    (hf : e.filters = []) (ht : e.transforms = [])
    (hsrc : ∀ s ∈ e.sources, (s.entries.map Prod.fst).Nodup)
    (hd : (e.defaults.map Prod.fst).Nodup) :
    lookupA (loaderLoad e) k =
      match sourcesLookup e.sources k with
      | some v => some v
      | none => lookupA e.defaults k := by
  have hLoad : loaderLoad e = e.sources.foldl (fun acc s =>
      s.entries.foldl (fun acc p => updateA acc p.1 p.2) acc)
      (e.defaults.foldl (fun acc p => updateA acc p.1 p.2) []) := by
    unfold loaderLoad lMatches lTransform
    rw [hf, ht]
    simp
  rw [hLoad, sourcesFold_lookup e.sources _ k hsrc]
  rw [foldl_update_lookup, nodup_reverse_findSome e.defaults k hd]
  cases hs : sourcesLookup e.sources k with
  | some v => rfl
  | none =>
    cases hl : lookupA e.defaults k <;> simp [lookupA]

/-- C8 witness: key `A` is in the defaults and in both sources; the
second source wins. -/
theorem claim_C8_witness :
    lookupA (loaderLoad e8) (gs "A") = some (gs "s2") :=
  (claim_C8_loader_merge e8 (gs "A") rfl rfl
    (by
      intro s hs
      simp only [e8, List.mem_cons, List.not_mem_nil, or_false] at hs
      rcases hs with rfl | rfl <;> decide)
    (by decide)).trans rfl
